import Mathlib

/-!
Shallow embedding of `src/s3_file_watcher_bot.py`.

The program is a single periodic reconciliation loop (`monitor_bucket`):
it fetches an S3 bucket listing, sends one Discord notification per newly
observed key, retracts (deletes) the notification of every key that
disappeared and that has a stored message id, and persists two JSON files
(`sent_files.json`: the known-key set; `file_messages.json`: the
key → message-id map) whenever something changed.

Mutable program state (the Python globals `sent_files`, a set of strings,
and `file_messages`, a dict from string to message id) is modelled
explicitly: the set as a `List String` with add-if-absent semantics and the
dict as a `List (String × Nat)` with at-most-one binding per key.  The
external collaborators (the S3 listing call, `channel.send`,
`channel.fetch_message` / `message.delete`) are modelled as parameters of
the tick function; a raised exception is the `none` / `.error` case.
-/

/-- One S3 object record as consumed by the loop: the fields of the boto3
listing entry that the program reads (`obj["Key"]`, `obj["Size"]`,
`obj["LastModified"]`).  The last-modified instant is represented as whole
seconds since the Unix epoch plus a microsecond part, which is exactly the
information a Python `datetime` carries. -/
structure S3Obj where
  key : String
  size : Nat
  lastModifiedSec : Int
  lastModifiedMicro : Nat
  deriving DecidableEq, Repr

/-- The boto3 `list_objects_v2` response, as far as the program reads it:
`response.get("Contents", [])` means a response may lack the `Contents`
entry, modelled by `Option`. -/
structure S3Response where
  contents? : Option (List S3Obj)
  deriving DecidableEq, Repr

/-- Outcome of the retraction attempt (`channel.fetch_message` followed by
`message.delete`): success, `discord.NotFound`, or some other exception. -/
inductive RetractOutcome where
  | ok
  | notFound
  | err
  deriving DecidableEq, Repr

/-- The program's mutable state: the Python globals `sent_files` (a set of
keys) and `file_messages` (a dict key → Discord message id). -/
structure BotState where
  sent_files : List String
  file_messages : List (String × Nat)
  deriving DecidableEq, Repr

/-! ### Python dict / set primitives -/

/-- Python set `add`: insert the key if absent, keeping existing elements. -/
def setAdd (s : List String) (k : String) : List String :=
  if k ∈ s then s else s ++ [k]

/-- Python set `discard`: remove every occurrence of the key. -/
def setDiscard (s : List String) (k : String) : List String :=
  s.filter (fun x => decide (x ≠ k))

/-- Python dict assignment `d[k] = v`: replace the existing binding, else
append a new one (Python dicts keep insertion order). -/
def dictInsert (d : List (String × Nat)) (k : String) (v : Nat) :
    List (String × Nat) :=
  if d.any (fun p => decide (p.1 = k)) then
    d.map (fun p => if p.1 = k then (k, v) else p)
  else d ++ [(k, v)]

/-- Python `del d[k]`: drop the binding for `k`. -/
def dictErase (d : List (String × Nat)) (k : String) : List (String × Nat) :=
  d.filter (fun p => decide (p.1 ≠ k))

/-- Python `d[k]` / `k in d`: the value bound to `k`, if any. -/
def dictLookup (d : List (String × Nat)) (k : String) : Option Nat :=
  (d.find? (fun p => decide (p.1 = k))).map Prod.snd

/-! ### Metadata extraction (`get_file_metadata`) -/

/-- Round a rational to the nearest integer, ties to even: the rounding of
Python's `round` builtin. -/
def roundHalfEven (q : ℚ) : ℤ :=
  if Int.fract q < 1/2 then ⌊q⌋
  else if 1/2 < Int.fract q then ⌊q⌋ + 1
  else if Even ⌊q⌋ then ⌊q⌋ else ⌊q⌋ + 1

/-- Python `round(x, 2)`: round to two decimal places (idealising the
float arithmetic by exact rational arithmetic). -/
def pyRound2 (q : ℚ) : ℚ := (roundHalfEven (100 * q) : ℚ) / 100

/-- Python `int(x)` on a real number: truncation toward zero. -/
def intTrunc (q : ℚ) : ℤ := if 0 ≤ q then ⌊q⌋ else ⌈q⌉

/-- The POSIX timestamp of a last-modified instant, in seconds: what
`datetime.replace(tzinfo=timezone.utc).timestamp()` returns. -/
def timestampOf (sec : Int) (micro : Nat) : ℚ :=
  (sec : ℚ) + (micro : ℚ) / 1000000

/-- Function `get_file_metadata(obj)`: size in MB, as
`round(obj["Size"] / (1024 * 1024), 2)`, and the creation timestamp as
`int(obj["LastModified"].replace(tzinfo=timezone.utc).timestamp())`. -/
def get_file_metadata (obj : S3Obj) : ℚ × ℤ :=
  (pyRound2 ((obj.size : ℚ) / (1024 * 1024)),
   intTrunc (timestampOf obj.lastModifiedSec obj.lastModifiedMicro))

/-! ### The reconciliation tick (`monitor_bucket`)

One execution of the body of `monitor_bucket`.  The external calls are
parameters:
* `sendFn obj` models `await send_file_embed(channel, filename, size_mb,
  timestamp, download_url)` for the listing entry `obj` (the embed fields
  are computed from `obj` alone); `some mid` is a successful send
  returning `message.id`, `none` is a raised exception, which propagates
  to the outer `except` of `monitor_bucket`;
* `retractFn mid` models `channel.fetch_message(mid)` followed by
  `message.delete()`: success, `discord.NotFound`, or another exception
  (both failure kinds are caught inside the deletion loop).
-/

/-- Set `current_files = {obj["Key"] for obj in contents}` (used only through
membership, so the key list stands for the set). -/
def currentKeys (contents : List S3Obj) : List String :=
  contents.map (·.key)

/-- The first loop of `monitor_bucket` (lines 111–116): scan `contents`
in listing order; each key not yet in `sent_files` is added to
`sent_files` and its object appended to `new_files`.  Returns the updated
`sent_files` and `new_files`. -/
def collectNew : List String → List S3Obj → List String × List S3Obj
  | sent, [] => (sent, [])
  | sent, obj :: rest =>
    if obj.key ∈ sent then collectNew sent rest
    else
      let r := collectNew (setAdd sent obj.key) rest
      (r.1, obj :: r.2)

/-- The send loop of `monitor_bucket` (lines 124–132): for each new
object in order, send the embed and record `file_messages[filename] =
message_id`.  A raised send aborts the loop (third component `true`);
the second component lists the keys whose send succeeded, in order. -/
def processNew (sendFn : S3Obj → Option Nat) :
    List (String × Nat) → List S3Obj →
    List (String × Nat) × List String × Bool
  | fm, [] => (fm, [], false)
  | fm, obj :: rest =>
    match sendFn obj with
    | none => (fm, [], true)
    | some mid =>
      let r := processNew sendFn (dictInsert fm obj.key mid) rest
      (r.1, obj.key :: r.2.1, r.2.2)

/-- The deletion loop of `monitor_bucket` (lines 135–146): for each
deleted filename, if it is in `file_messages` the stored message is
fetched and deleted (`NotFound` passes silently, any other exception is
logged) and the map entry is dropped; in every case the filename is
discarded from `sent_files`.  Returns the updated map, the updated
`sent_files`, the attempted retractions `(filename, message_id)`, and the
filenames whose retraction raised a non-`NotFound` error (the logged
ones). -/
def processDeleted (retractFn : Nat → RetractOutcome) :
    List (String × Nat) → List String → List String →
    List (String × Nat) × List String × List (String × Nat) × List String
  | fm, sent, [] => (fm, sent, [], [])
  | fm, sent, k :: rest =>
    match dictLookup fm k with
    | some mid =>
      let r := processDeleted retractFn (dictErase fm k) (setDiscard sent k) rest
      (r.1, r.2.1, (k, mid) :: r.2.2.1,
        if retractFn mid = .err then k :: r.2.2.2 else r.2.2.2)
    | none => processDeleted retractFn fm (setDiscard sent k) rest

/-- Expression `response.get("Contents", [])`. -/
def contentsOf (resp : S3Response) : List S3Obj :=
  resp.contents?.getD []

/-- State of `sent_files` right after the first loop (all new keys added). -/
def sentAfterAdd (s : BotState) (resp : S3Response) : List String :=
  (collectNew s.sent_files (contentsOf resp)).1

/-- List `new_files` collected by the first loop. -/
def newObjs (s : BotState) (resp : S3Response) : List S3Obj :=
  (collectNew s.sent_files (contentsOf resp)).2

/-- Set `deleted_files = sent_files - current_files` (line 119; computed after
the first loop has already added the new keys). -/
def deletedKeys (s : BotState) (resp : S3Response) : List String :=
  (sentAfterAdd s resp).filter
    (fun k => decide (k ∉ currentKeys (contentsOf resp)))

/-- Result of one tick: the final program state, the keys whose
notification was sent, the attempted retractions, the logged retraction
failures, the contents written by `save_sent_files` / `save_file_messages`
(`none` when no save ran), and whether the outer `except` caught the
listing fetch (`fetchFailed`) or a raised send (`sendFailed`). -/
structure TickResult where
  state : BotState
  notified : List String
  retractions : List (String × Nat)
  deleteErrors : List String
  saved : Option (List String × List (String × Nat))
  fetchFailed : Bool
  sendFailed : Bool
  deriving DecidableEq, Repr

/-- State of `file_messages` after the send loop ran (entries recorded for the
sends that succeeded). -/
def fmAfterSend (sendFn : S3Obj → Option Nat) (s : BotState)
    (resp : S3Response) : List (String × Nat) :=
  (processNew sendFn s.file_messages (newObjs s resp)).1

/-- The keys whose notification send succeeded this tick, in order. -/
def notifiedKeys (sendFn : S3Obj → Option Nat) (s : BotState)
    (resp : S3Response) : List String :=
  (processNew sendFn s.file_messages (newObjs s resp)).2.1

/-- Whether some send raised (aborting the rest of the tick body). -/
def sendAborted (sendFn : S3Obj → Option Nat) (s : BotState)
    (resp : S3Response) : Bool :=
  (processNew sendFn s.file_messages (newObjs s resp)).2.2

/-- The deletion loop's result for this tick. -/
def afterDelete (retractFn : Nat → RetractOutcome)
    (sendFn : S3Obj → Option Nat) (s : BotState) (resp : S3Response) :
    List (String × Nat) × List String × List (String × Nat) × List String :=
  processDeleted retractFn (fmAfterSend sendFn s resp) (sentAfterAdd s resp)
    (deletedKeys s resp)

/-- Body of `monitor_bucket` after a successful listing fetch.  When a
send raises, the exception skips the deletion loop and the saves and is
caught by the outer `except` (state keeps the keys the first loop already
added and the map entries of the sends that succeeded). -/
def tickOk (resp : S3Response) (sendFn : S3Obj → Option Nat)
    (retractFn : Nat → RetractOutcome) (s : BotState) : TickResult :=
  if sendAborted sendFn s resp then
    ⟨⟨sentAfterAdd s resp, fmAfterSend sendFn s resp⟩,
     notifiedKeys sendFn s resp, [], [], none, false, true⟩
  else
    ⟨⟨(afterDelete retractFn sendFn s resp).2.1,
      (afterDelete retractFn sendFn s resp).1⟩,
     notifiedKeys sendFn s resp,
     (afterDelete retractFn sendFn s resp).2.2.1,
     (afterDelete retractFn sendFn s resp).2.2.2,
     (if (newObjs s resp).isEmpty && (deletedKeys s resp).isEmpty then none
      else some ((afterDelete retractFn sendFn s resp).2.1,
        (afterDelete retractFn sendFn s resp).1)),
     false, false⟩

/-- One tick of `monitor_bucket`: a failed listing fetch is caught by the
outer `except` (logged, nothing else happens); otherwise the body runs. -/
def tick (fetch : Except Unit S3Response) (sendFn : S3Obj → Option Nat)
    (retractFn : Nat → RetractOutcome) (s : BotState) : TickResult :=
  match fetch with
  | .error _ => ⟨s, [], [], [], none, true, false⟩
  | .ok resp => tickOk resp sendFn retractFn s

/-- The environment of one scheduled tick: the listing-fetch outcome and
the behaviour of the Discord send/retract calls during that tick. -/
structure TickInput where
  fetch : Except Unit S3Response
  sendFn : S3Obj → Option Nat
  retractFn : Nat → RetractOutcome

/-- The `tasks.loop`-driven run: one tick per scheduled firing, each
starting from the state the previous tick left behind. -/
def runTicks : BotState → List TickInput → List TickResult
  | _, [] => []
  | s, i :: rest =>
    let r := tick i.fetch i.sendFn i.retractFn s
    r :: runTicks r.state rest

/-! ### State persistence -/

/-- Function `load_sent_files()`: the persisted key list if `sent_files.json`
exists, else the empty set.  `disk` is the parsed content of the file
(`none` = file absent). -/
def load_sent_files (disk : Option (List String)) : List String :=
  disk.getD []

/-- Function `load_file_messages()`: the persisted map if `file_messages.json`
exists, else the empty dict. -/
def load_file_messages (disk : Option (List (String × Nat))) :
    List (String × Nat) :=
  disk.getD []

/-- Startup (lines 57–58): `sent_files = load_sent_files();
file_messages = load_file_messages()`. -/
def loadState (diskSent : Option (List String))
    (diskFm : Option (List (String × Nat))) : BotState :=
  ⟨load_sent_files diskSent, load_file_messages diskFm⟩

/-- JSON encoding of a string (the keys involved need no escaping). -/
def jsonStr (s : String) : String := "\"" ++ s ++ "\""

/-- Call `json.dump(list(files), f)`: the serialized key list. -/
def jsonList (l : List String) : String :=
  "[" ++ String.intercalate ", " (l.map jsonStr) ++ "]"

/-- Observable contents of `sent_files.json` over the course of
`save_sent_files(files)` when the file previously held `previous`:
`open(SENT_FILES_PATH, "w")` truncates the file in place, then
`json.dump` writes the new serialization.  A reader at a crash point
observes one of these contents (the code writes directly to the final
path; there is no write-to-temp-then-rename). -/
def save_sent_files_trace (previous : String) (files : List String) :
    List String :=
  [previous, "", jsonList files]

/-- The data-model invariant claimed by the spec: every key bound in
`file_messages` is in `sent_files`. -/
def StateInv (s : BotState) : Prop :=
  ∀ p ∈ s.file_messages, p.1 ∈ s.sent_files

instance (s : BotState) : Decidable (StateInv s) :=
  inferInstanceAs (Decidable (∀ p ∈ s.file_messages, p.1 ∈ s.sent_files))

/-! ### Lemmas about the set / dict primitives -/

theorem mem_setAdd {s : List String} {x k : String} :
    x ∈ setAdd s k ↔ x ∈ s ∨ x = k := by
  unfold setAdd
  split
  · constructor
    · exact Or.inl
    · rintro (h | rfl) <;> assumption
  · simp [List.mem_append]

theorem mem_setDiscard {s : List String} {x k : String} :
    x ∈ setDiscard s k ↔ x ∈ s ∧ x ≠ k := by
  simp [setDiscard]

theorem setAdd_nodup {s : List String} {k : String} (h : s.Nodup) :
    (setAdd s k).Nodup := by
  unfold setAdd
  split
  · exact h
  · simpa using h.append (List.nodup_singleton k) (by simpa using ‹k ∉ s›)

theorem dictLookup_erase_self (d : List (String × Nat)) (k : String) :
    dictLookup (dictErase d k) k = none := by
  simp only [dictLookup, dictErase, Option.map_eq_none', List.find?_eq_none,
    List.mem_filter]
  intro p hp
  simpa using hp.2

theorem dictLookup_cons (p : String × Nat) (d : List (String × Nat))
    (k : String) :
    dictLookup (p :: d) k = if p.1 = k then some p.2 else dictLookup d k := by
  by_cases h : p.1 = k <;> simp [dictLookup, h]

theorem dictErase_cons (p : String × Nat) (d : List (String × Nat))
    (k : String) :
    dictErase (p :: d) k =
      if p.1 = k then dictErase d k else p :: dictErase d k := by
  by_cases h : p.1 = k <;> simp [dictErase, h]

theorem dictLookup_erase_ne (d : List (String × Nat)) {x k : String}
    (h : x ≠ k) : dictLookup (dictErase d x) k = dictLookup d k := by
  induction d with
  | nil => rfl
  | cons p rest ih =>
    rw [dictErase_cons]
    by_cases hp : p.1 = x
    · rw [if_pos hp, ih, dictLookup_cons, if_neg (by rw [hp]; exact h)]
    · rw [if_neg hp, dictLookup_cons, dictLookup_cons, ih]

theorem dictLookup_insert_ne (d : List (String × Nat)) {x k : String}
    (v : Nat) (h : x ≠ k) :
    dictLookup (dictInsert d x v) k = dictLookup d k := by
  have hmap : ∀ d' : List (String × Nat),
      dictLookup (d'.map (fun p => if p.1 = x then (x, v) else p)) k =
        dictLookup d' k := by
    intro d'
    induction d' with
    | nil => rfl
    | cons p rest ih =>
      rw [List.map_cons, dictLookup_cons, dictLookup_cons, ih]
      by_cases hp : p.1 = x
      · rw [if_pos hp]
        rw [show ((x, v) : String × Nat).1 = x from rfl]
        rw [if_neg h, if_neg (by rw [hp]; exact h)]
      · rw [if_neg hp]
  have happ : ∀ d' : List (String × Nat),
      dictLookup (d' ++ [(x, v)]) k = dictLookup d' k := by
    intro d'
    induction d' with
    | nil =>
      rw [List.nil_append, dictLookup_cons]
      rw [show ((x, v) : String × Nat).1 = x from rfl, if_neg h]
    | cons p rest ih =>
      rw [List.cons_append, dictLookup_cons, dictLookup_cons, ih]
  unfold dictInsert
  split
  · exact hmap d
  · exact happ d

theorem mem_dictInsert {d : List (String × Nat)} {p : String × Nat}
    {k : String} {v : Nat} (h : p ∈ dictInsert d k v) :
    p.1 = k ∨ p ∈ d := by
  unfold dictInsert at h
  split at h
  · rcases List.mem_map.mp h with ⟨q, hq, rfl⟩
    split
    · exact Or.inl rfl
    · exact Or.inr hq
  · rcases List.mem_append.mp h with hq | hq
    · exact Or.inr hq
    · left
      simp only [List.mem_singleton] at hq
      rw [hq]

theorem mem_dictErase {d : List (String × Nat)} {p : String × Nat}
    {k : String} (h : p ∈ dictErase d k) : p ∈ d :=
  (List.mem_filter.mp h).1

theorem dictLookup_ne_none_of_mem {d : List (String × Nat)}
    {p : String × Nat} (h : p ∈ d) : dictLookup d p.1 ≠ none := by
  induction d with
  | nil => cases h
  | cons q rest ih =>
    rcases List.mem_cons.mp h with rfl | hmem
    · simp [dictLookup_cons]
    · rw [dictLookup_cons]
      split
      · simp
      · exact ih hmem

/-! ### Lemmas about the first loop (`collectNew`) -/

theorem mem_collectNew_fst (contents : List S3Obj) :
    ∀ sent k, k ∈ (collectNew sent contents).1 ↔
      k ∈ sent ∨ k ∈ currentKeys contents := by
  induction contents with
  | nil => intro sent k; simp [collectNew, currentKeys]
  | cons obj rest ih =>
    intro sent k
    rw [collectNew]
    split
    · rw [ih]
      have hk : k = obj.key → k ∈ sent := fun e => e ▸ ‹obj.key ∈ sent›
      simp only [currentKeys, List.map_cons, List.mem_cons]
      constructor
      · rintro (h | h)
        · exact Or.inl h
        · exact Or.inr (Or.inr h)
      · rintro (h | h | h)
        · exact Or.inl h
        · exact Or.inl (hk h)
        · exact Or.inr h
    · rw [ih, mem_setAdd]
      simp only [currentKeys, List.map_cons, List.mem_cons]
      tauto

theorem mem_collectNew_snd (contents : List S3Obj) :
    ∀ sent k, k ∈ (collectNew sent contents).2.map (·.key) ↔
      k ∈ currentKeys contents ∧ k ∉ sent := by
  induction contents with
  | nil => intro sent k; simp [collectNew, currentKeys]
  | cons obj rest ih =>
    intro sent k
    rw [collectNew]
    split
    · rw [ih]
      have hk : k = obj.key → k ∈ sent := fun e => e ▸ ‹obj.key ∈ sent›
      simp only [currentKeys, List.map_cons, List.mem_cons]
      tauto
    · simp only [List.map_cons, List.mem_cons, ih, mem_setAdd]
      have : (k ∈ currentKeys rest ∧ ¬(k ∈ sent ∨ k = obj.key)) ↔
          (k ∈ currentKeys rest ∧ k ∉ sent ∧ k ≠ obj.key) := by tauto
      rw [this]
      simp only [currentKeys, List.map_cons, List.mem_cons]
      constructor
      · rintro (rfl | ⟨h1, h2, h3⟩)
        · exact ⟨Or.inl rfl, ‹obj.key ∉ sent›⟩
        · exact ⟨Or.inr h1, h2⟩
      · rintro ⟨h1 | h1, h2⟩
        · exact Or.inl h1
        · by_cases hko : k = obj.key
          · exact Or.inl hko
          · exact Or.inr ⟨h1, h2, hko⟩

theorem collectNew_snd_keys_nodup (contents : List S3Obj) :
    ∀ sent, ((collectNew sent contents).2.map (·.key)).Nodup := by
  induction contents with
  | nil => intro sent; simp [collectNew]
  | cons obj rest ih =>
    intro sent
    rw [collectNew]
    split
    · exact ih sent
    · simp only [List.map_cons, List.nodup_cons]
      refine ⟨?_, ih _⟩
      intro hmem
      rcases (mem_collectNew_snd rest _ _).mp hmem with ⟨_, habs⟩
      exact habs (mem_setAdd.mpr (Or.inr rfl))

theorem collectNew_fst_nodup (contents : List S3Obj) :
    ∀ sent, sent.Nodup → (collectNew sent contents).1.Nodup := by
  induction contents with
  | nil => intro sent h; exact h
  | cons obj rest ih =>
    intro sent h
    rw [collectNew]
    split
    · exact ih sent h
    · exact ih _ (setAdd_nodup h)

theorem collectNew_eq_of_all_mem (contents : List S3Obj) :
    ∀ sent, (∀ obj ∈ contents, obj.key ∈ sent) →
      collectNew sent contents = (sent, []) := by
  induction contents with
  | nil => intro sent _; rfl
  | cons obj rest ih =>
    intro sent h
    rw [collectNew, if_pos (h obj (List.mem_cons_self obj rest))]
    exact ih sent (fun o ho => h o (List.mem_cons_of_mem obj ho))

/-! ### Lemmas about the send loop (`processNew`) -/

theorem processNew_notified_of_not_aborted (f : S3Obj → Option Nat)
    (objs : List S3Obj) :
    ∀ fm, (processNew f fm objs).2.2 = false →
      (processNew f fm objs).2.1 = objs.map (·.key) := by
  induction objs with
  | nil => intro fm _; rfl
  | cons obj rest ih =>
    intro fm h
    rw [processNew] at h ⊢
    cases hs : f obj with
    | none => rw [hs] at h; exact Bool.noConfusion h
    | some mid =>
      rw [hs] at h
      have h' : (processNew f (dictInsert fm obj.key mid) rest).2.2 = false := h
      show obj.key :: (processNew f (dictInsert fm obj.key mid) rest).2.1 =
        (obj :: rest).map (·.key)
      rw [List.map_cons, ih _ h']

theorem processNew_notified_subset (f : S3Obj → Option Nat)
    (objs : List S3Obj) :
    ∀ fm k, k ∈ (processNew f fm objs).2.1 → k ∈ objs.map (·.key) := by
  induction objs with
  | nil => intro fm k h; cases h
  | cons obj rest ih =>
    intro fm k h
    rw [processNew] at h
    cases hs : f obj with
    | none => rw [hs] at h; exact absurd h (List.not_mem_nil k)
    | some mid =>
      rw [hs] at h
      have h' : k ∈ obj.key :: (processNew f (dictInsert fm obj.key mid) rest).2.1 := h
      simp only [List.map_cons, List.mem_cons]
      rcases List.mem_cons.mp h' with rfl | h''
      · exact Or.inl rfl
      · exact Or.inr (ih _ k h'')

theorem processNew_lookup_of_not_mem (f : S3Obj → Option Nat)
    (objs : List S3Obj) :
    ∀ fm k, k ∉ objs.map (·.key) →
      dictLookup (processNew f fm objs).1 k = dictLookup fm k := by
  induction objs with
  | nil => intro fm k _; rfl
  | cons obj rest ih =>
    intro fm k h
    simp only [List.map_cons, List.mem_cons] at h
    push_neg at h
    rw [processNew]
    cases hs : f obj with
    | none => rfl
    | some mid =>
      show dictLookup (processNew f (dictInsert fm obj.key mid) rest).1 k =
        dictLookup fm k
      rw [ih _ k h.2, dictLookup_insert_ne _ _ (fun e => h.1 e.symm)]

theorem processNew_fst_keys (f : S3Obj → Option Nat) (objs : List S3Obj) :
    ∀ fm p, p ∈ (processNew f fm objs).1 →
      p ∈ fm ∨ p.1 ∈ objs.map (·.key) := by
  induction objs with
  | nil => intro fm p h; exact Or.inl h
  | cons obj rest ih =>
    intro fm p h
    rw [processNew] at h
    cases hs : f obj with
    | none => rw [hs] at h; exact Or.inl h
    | some mid =>
      rw [hs] at h
      have h' : p ∈ (processNew f (dictInsert fm obj.key mid) rest).1 := h
      simp only [List.map_cons, List.mem_cons]
      rcases ih _ p h' with h'' | h''
      · rcases mem_dictInsert h'' with h3 | h3
        · exact Or.inr (Or.inl h3)
        · exact Or.inl h3
      · exact Or.inr (Or.inr h'')

/-! ### Lemmas about the deletion loop (`processDeleted`) -/

theorem processDeleted_sent_mem (rf : Nat → RetractOutcome)
    (del : List String) :
    ∀ fm sent x, x ∈ (processDeleted rf fm sent del).2.1 ↔
      x ∈ sent ∧ x ∉ del := by
  induction del with
  | nil => intro fm sent x; simp [processDeleted]
  | cons k rest ih =>
    intro fm sent x
    rw [processDeleted]
    cases hm : dictLookup fm k with
    | some mid =>
      show x ∈ (processDeleted rf (dictErase fm k) (setDiscard sent k) rest).2.1 ↔
        x ∈ sent ∧ x ∉ k :: rest
      rw [ih, mem_setDiscard]
      simp only [List.mem_cons]
      tauto
    | none =>
      show x ∈ (processDeleted rf fm (setDiscard sent k) rest).2.1 ↔
        x ∈ sent ∧ x ∉ k :: rest
      rw [ih, mem_setDiscard]
      simp only [List.mem_cons]
      tauto

theorem processDeleted_lookup (rf : Nat → RetractOutcome)
    (del : List String) :
    ∀ fm sent k, dictLookup (processDeleted rf fm sent del).1 k =
      if k ∈ del then none else dictLookup fm k := by
  induction del with
  | nil => intro fm sent k; simp [processDeleted]
  | cons x rest ih =>
    intro fm sent k
    rw [processDeleted]
    cases hm : dictLookup fm x with
    | some mid =>
      show dictLookup
          (processDeleted rf (dictErase fm x) (setDiscard sent x) rest).1 k =
        if k ∈ x :: rest then none else dictLookup fm k
      rw [ih]
      by_cases hr : k ∈ rest
      · rw [if_pos hr, if_pos (List.mem_cons_of_mem x hr)]
      · rw [if_neg hr]
        by_cases hk : k = x
        · subst hk
          rw [if_pos (List.mem_cons_self k rest), dictLookup_erase_self]
        · rw [if_neg (by simp [List.mem_cons, hk, hr]),
            dictLookup_erase_ne _ (fun e => hk e.symm)]
    | none =>
      show dictLookup (processDeleted rf fm (setDiscard sent x) rest).1 k =
        if k ∈ x :: rest then none else dictLookup fm k
      rw [ih]
      by_cases hr : k ∈ rest
      · rw [if_pos hr, if_pos (List.mem_cons_of_mem x hr)]
      · rw [if_neg hr]
        by_cases hk : k = x
        · subst hk
          rw [if_pos (List.mem_cons_self k rest), hm]
        · rw [if_neg (by simp [List.mem_cons, hk, hr])]

theorem processDeleted_retractions (rf : Nat → RetractOutcome)
    (del : List String) :
    ∀ fm sent, del.Nodup →
      (processDeleted rf fm sent del).2.2.1 =
        del.filterMap (fun k => (dictLookup fm k).map (fun m => (k, m))) := by
  induction del with
  | nil => intro fm sent _; rfl
  | cons x rest ih =>
    intro fm sent hnd
    have hx : x ∉ rest := (List.nodup_cons.mp hnd).1
    have hrest : rest.Nodup := (List.nodup_cons.mp hnd).2
    rw [processDeleted]
    cases hm : dictLookup fm x with
    | some mid =>
      show (x, mid) ::
          (processDeleted rf (dictErase fm x) (setDiscard sent x) rest).2.2.1 =
        (x :: rest).filterMap (fun k => (dictLookup fm k).map (fun m => (k, m)))
      rw [ih _ _ hrest, List.filterMap_cons_some (by rw [hm]; rfl)]
      congr 1
      apply List.filterMap_congr
      intro a ha
      rw [dictLookup_erase_ne _ (fun e => hx (by rw [e]; exact ha))]
    | none =>
      show (processDeleted rf fm (setDiscard sent x) rest).2.2.1 =
        (x :: rest).filterMap (fun k => (dictLookup fm k).map (fun m => (k, m)))
      rw [ih _ _ hrest, List.filterMap_cons_none (by rw [hm]; rfl)]

theorem processDeleted_errors (rf : Nat → RetractOutcome)
    (del : List String) :
    ∀ fm sent, del.Nodup →
      (processDeleted rf fm sent del).2.2.2 =
        del.filterMap (fun k => (dictLookup fm k).bind
          (fun m => if rf m = RetractOutcome.err then some k else none)) := by
  induction del with
  | nil => intro fm sent _; rfl
  | cons x rest ih =>
    intro fm sent hnd
    have hx : x ∉ rest := (List.nodup_cons.mp hnd).1
    have hrest : rest.Nodup := (List.nodup_cons.mp hnd).2
    rw [processDeleted]
    cases hm : dictLookup fm x with
    | some mid =>
      show (if rf mid = RetractOutcome.err then
          x :: (processDeleted rf (dictErase fm x) (setDiscard sent x) rest).2.2.2
        else (processDeleted rf (dictErase fm x) (setDiscard sent x) rest).2.2.2) =
        (x :: rest).filterMap (fun k => (dictLookup fm k).bind
          (fun m => if rf m = RetractOutcome.err then some k else none))
      have hcongr :
          rest.filterMap (fun k => (dictLookup (dictErase fm x) k).bind
            (fun m => if rf m = RetractOutcome.err then some k else none)) =
          rest.filterMap (fun k => (dictLookup fm k).bind
            (fun m => if rf m = RetractOutcome.err then some k else none)) := by
        apply List.filterMap_congr
        intro a ha
        rw [dictLookup_erase_ne _ (fun e => hx (by rw [e]; exact ha))]
      by_cases herr : rf mid = RetractOutcome.err
      · rw [if_pos herr, ih _ _ hrest, hcongr]
        exact (List.filterMap_cons_some (by simp [hm, herr])).symm
      · rw [if_neg herr, ih _ _ hrest, hcongr]
        exact (List.filterMap_cons_none (by simp [hm, herr])).symm
    | none =>
      show (processDeleted rf fm (setDiscard sent x) rest).2.2.2 =
        (x :: rest).filterMap (fun k => (dictLookup fm k).bind
          (fun m => if rf m = RetractOutcome.err then some k else none))
      rw [ih _ _ hrest, List.filterMap_cons_none (by rw [hm]; rfl)]

theorem processDeleted_fst_subset (rf : Nat → RetractOutcome)
    (del : List String) :
    ∀ fm sent p, p ∈ (processDeleted rf fm sent del).1 → p ∈ fm := by
  induction del with
  | nil => intro fm sent p h; exact h
  | cons x rest ih =>
    intro fm sent p h
    rw [processDeleted] at h
    cases hm : dictLookup fm x with
    | some mid =>
      rw [hm] at h
      exact mem_dictErase (ih _ _ p h)
    | none =>
      rw [hm] at h
      exact ih _ _ p h

/-! ### Tick-level lemmas -/

theorem mem_sentAfterAdd {s : BotState} {resp : S3Response} {k : String} :
    k ∈ sentAfterAdd s resp ↔
      k ∈ s.sent_files ∨ k ∈ currentKeys (contentsOf resp) :=
  mem_collectNew_fst _ _ _

theorem sentAfterAdd_nodup {s : BotState} {resp : S3Response}
    (h : s.sent_files.Nodup) : (sentAfterAdd s resp).Nodup :=
  collectNew_fst_nodup _ _ h

theorem mem_deletedKeys {s : BotState} {resp : S3Response} {k : String} :
    k ∈ deletedKeys s resp ↔
      k ∈ s.sent_files ∧ k ∉ currentKeys (contentsOf resp) := by
  unfold deletedKeys
  rw [List.mem_filter]
  simp only [decide_eq_true_eq]
  constructor
  · rintro ⟨h1, h2⟩
    rcases mem_sentAfterAdd.mp h1 with h | h
    · exact ⟨h, h2⟩
    · exact absurd h h2
  · rintro ⟨h1, h2⟩
    exact ⟨mem_sentAfterAdd.mpr (Or.inl h1), h2⟩

theorem deletedKeys_nodup {s : BotState} {resp : S3Response}
    (h : s.sent_files.Nodup) : (deletedKeys s resp).Nodup :=
  (sentAfterAdd_nodup h).filter _

theorem mem_newKeys {s : BotState} {resp : S3Response} {k : String} :
    k ∈ (newObjs s resp).map (·.key) ↔
      k ∈ currentKeys (contentsOf resp) ∧ k ∉ s.sent_files :=
  mem_collectNew_snd _ _ _

theorem mem_afterDelete_sent {rf : Nat → RetractOutcome}
    {sf : S3Obj → Option Nat} {s : BotState} {resp : S3Response} {x : String} :
    x ∈ (afterDelete rf sf s resp).2.1 ↔
      x ∈ sentAfterAdd s resp ∧ x ∉ deletedKeys s resp :=
  processDeleted_sent_mem _ _ _ _ _

theorem afterDelete_lookup (rf : Nat → RetractOutcome)
    (sf : S3Obj → Option Nat) (s : BotState) (resp : S3Response) (k : String) :
    dictLookup (afterDelete rf sf s resp).1 k =
      if k ∈ deletedKeys s resp then none
      else dictLookup (fmAfterSend sf s resp) k :=
  processDeleted_lookup _ _ _ _ _

theorem tick_error_eq (e : Unit) (sf : S3Obj → Option Nat)
    (rf : Nat → RetractOutcome) (s : BotState) :
    tick (.error e) sf rf s = ⟨s, [], [], [], none, true, false⟩ := rfl

theorem tick_ok_eq (resp : S3Response) (sf : S3Obj → Option Nat)
    (rf : Nat → RetractOutcome) (s : BotState) :
    tick (.ok resp) sf rf s = tickOk resp sf rf s := rfl

theorem tickOk_sendFailed (resp : S3Response) (sf : S3Obj → Option Nat)
    (rf : Nat → RetractOutcome) (s : BotState) :
    (tickOk resp sf rf s).sendFailed = sendAborted sf s resp := by
  unfold tickOk
  split
  · rename_i h
    exact h.symm
  · rename_i h
    simp only [Bool.not_eq_true] at h
    exact h.symm

theorem tickOk_of_aborted {resp : S3Response} {sf : S3Obj → Option Nat}
    {rf : Nat → RetractOutcome} {s : BotState}
    (h : sendAborted sf s resp = true) :
    tickOk resp sf rf s =
      ⟨⟨sentAfterAdd s resp, fmAfterSend sf s resp⟩,
       notifiedKeys sf s resp, [], [], none, false, true⟩ := by
  unfold tickOk
  rw [if_pos h]

theorem tickOk_of_not_aborted {resp : S3Response} {sf : S3Obj → Option Nat}
    {rf : Nat → RetractOutcome} {s : BotState}
    (h : sendAborted sf s resp = false) :
    tickOk resp sf rf s =
      ⟨⟨(afterDelete rf sf s resp).2.1, (afterDelete rf sf s resp).1⟩,
       notifiedKeys sf s resp,
       (afterDelete rf sf s resp).2.2.1,
       (afterDelete rf sf s resp).2.2.2,
       (if (newObjs s resp).isEmpty && (deletedKeys s resp).isEmpty then none
        else some ((afterDelete rf sf s resp).2.1,
          (afterDelete rf sf s resp).1)),
       false, false⟩ := by
  unfold tickOk
  rw [if_neg (by simp [h])]

theorem notifiedKeys_mem {sf : S3Obj → Option Nat} {s : BotState}
    {resp : S3Response} {k : String} (h : k ∈ notifiedKeys sf s resp) :
    k ∈ currentKeys (contentsOf resp) ∧ k ∉ s.sent_files :=
  mem_newKeys.mp (processNew_notified_subset _ _ _ k h)

theorem notifiedKeys_of_not_aborted {sf : S3Obj → Option Nat} {s : BotState}
    {resp : S3Response} (h : sendAborted sf s resp = false) :
    notifiedKeys sf s resp = (newObjs s resp).map (·.key) :=
  processNew_notified_of_not_aborted _ _ _ h

/-- Predicate `keyListed k i`: during tick input `i`, either the fetch fails or the
listing contains an object with key `k` (the key "remains present"). -/
def keyListed (k : String) (i : TickInput) : Prop :=
  match i.fetch with
  | .error _ => True
  | .ok resp => k ∈ currentKeys (contentsOf resp)

theorem tick_preserves_key {i : TickInput} {s : BotState} {k : String}
    (hk : k ∈ s.sent_files) (hl : keyListed k i) :
    k ∈ (tick i.fetch i.sendFn i.retractFn s).state.sent_files := by
  cases hf : i.fetch with
  | error e => exact hk
  | ok resp =>
    have hcur : k ∈ currentKeys (contentsOf resp) := by
      unfold keyListed at hl
      rw [hf] at hl
      exact hl
    rw [tick_ok_eq]
    unfold tickOk
    split
    · exact mem_sentAfterAdd.mpr (Or.inl hk)
    · exact mem_afterDelete_sent.mpr ⟨mem_sentAfterAdd.mpr (Or.inl hk),
        fun hd => (mem_deletedKeys.mp hd).2 hcur⟩

theorem tick_not_notified {f : Except Unit S3Response}
    {sf : S3Obj → Option Nat} {rf : Nat → RetractOutcome} {s : BotState}
    {k : String} (hk : k ∈ s.sent_files) :
    k ∉ (tick f sf rf s).notified := by
  cases f with
  | error e => exact List.not_mem_nil k
  | ok resp =>
    intro h
    rw [tick_ok_eq] at h
    unfold tickOk at h
    have h' : k ∈ notifiedKeys sf s resp := by
      split at h <;> exact h
    exact (notifiedKeys_mem h').2 hk

theorem runTicks_not_notified {k : String} :
    ∀ (inputs : List TickInput) (s : BotState), k ∈ s.sent_files →
      (∀ i ∈ inputs, keyListed k i) →
      ∀ r ∈ runTicks s inputs, k ∉ r.notified := by
  intro inputs
  induction inputs with
  | nil => intro s _ _ r hr; cases hr
  | cons i rest ih =>
    intro s hk hall r hr
    rw [runTicks] at hr
    rcases List.mem_cons.mp hr with rfl | hr'
    · exact tick_not_notified hk
    · exact ih _ (tick_preserves_key hk (hall i (List.mem_cons_self i rest)))
        (fun j hj => hall j (List.mem_cons_of_mem i hj)) r hr'

theorem runTicks_error_prefix (e : Unit) (sf : S3Obj → Option Nat)
    (rf : Nat → RetractOutcome) :
    ∀ (n : Nat) (s : BotState) (rest : List TickInput),
      runTicks s (List.replicate n ⟨.error e, sf, rf⟩ ++ rest) =
        List.replicate n (⟨s, [], [], [], none, true, false⟩ : TickResult) ++
          runTicks s rest := by
  intro n
  induction n with
  | zero => intro s rest; rfl
  | succ m ih =>
    intro s rest
    rw [List.replicate_succ, List.cons_append, runTicks,
      List.replicate_succ, List.cons_append]
    exact congrArg (List.cons _) (ih s rest)

theorem stateInv_tick {f : Except Unit S3Response} {sf : S3Obj → Option Nat}
    {rf : Nat → RetractOutcome} {s : BotState} (h : StateInv s) :
    StateInv (tick f sf rf s).state := by
  cases f with
  | error e => exact h
  | ok resp =>
    rw [tick_ok_eq]
    unfold tickOk
    split
    · intro p hp
      rcases processNew_fst_keys _ _ _ p hp with hp' | hp'
      · exact mem_sentAfterAdd.mpr (Or.inl (h p hp'))
      · exact mem_sentAfterAdd.mpr (Or.inr (mem_newKeys.mp hp').1)
    · intro p hp
      have hfm : p ∈ fmAfterSend sf s resp :=
        processDeleted_fst_subset _ _ _ _ p hp
      have hsent : p.1 ∈ sentAfterAdd s resp := by
        rcases processNew_fst_keys _ _ _ p hfm with hp' | hp'
        · exact mem_sentAfterAdd.mpr (Or.inl (h p hp'))
        · exact mem_sentAfterAdd.mpr (Or.inr (mem_newKeys.mp hp').1)
      have hnd : p.1 ∉ deletedKeys s resp := by
        intro hd
        have hnone : dictLookup (afterDelete rf sf s resp).1 p.1 = none := by
          rw [afterDelete_lookup, if_pos hd]
        exact dictLookup_ne_none_of_mem hp hnone
      exact mem_afterDelete_sent.mpr ⟨hsent, hnd⟩

/-! ### Arithmetic lemmas for the metadata extraction -/

theorem abs_roundHalfEven_sub_le (q : ℚ) :
    |(roundHalfEven q : ℚ) - q| ≤ 1/2 := by
  have hadd : (⌊q⌋ : ℚ) + Int.fract q = q := Int.floor_add_fract q
  have h0 : 0 ≤ Int.fract q := Int.fract_nonneg q
  have h1 : Int.fract q < 1 := Int.fract_lt_one q
  unfold roundHalfEven
  split
  · rename_i h
    rw [abs_le]
    constructor <;> linarith
  · rename_i h
    rw [not_lt] at h
    split
    · rename_i h'
      push_cast
      rw [abs_le]
      constructor <;> linarith
    · rename_i h'
      rw [not_lt] at h'
      have hf : Int.fract q = 1/2 := le_antisymm h' h
      split
      · rw [abs_le]
        constructor <;> linarith
      · push_cast
        rw [abs_le]
        constructor <;> linarith

theorem abs_pyRound2_sub_le (q : ℚ) : |pyRound2 q - q| ≤ 1/200 := by
  have h := abs_roundHalfEven_sub_le (100 * q)
  unfold pyRound2
  have heq : (roundHalfEven (100 * q) : ℚ) / 100 - q =
      ((roundHalfEven (100 * q) : ℚ) - 100 * q) / 100 := by ring
  rw [heq, abs_div]
  have h100 : |(100 : ℚ)| = 100 := by norm_num
  rw [h100]
  linarith

theorem intTrunc_timestampOf_nonneg {sec : ℤ} {micro : ℕ} (hs : 0 ≤ sec)
    (hm : micro < 1000000) : intTrunc (timestampOf sec micro) = sec := by
  have h0 : (0:ℚ) ≤ (micro : ℚ) / 1000000 := by positivity
  have h1 : (micro : ℚ) / 1000000 < 1 := by
    rw [div_lt_one (by norm_num : (0:ℚ) < 1000000)]
    exact_mod_cast hm
  have hsq : (0:ℚ) ≤ (sec : ℚ) := by exact_mod_cast hs
  unfold intTrunc timestampOf
  rw [if_pos (by linarith), Int.floor_eq_iff]
  constructor
  · linarith
  · linarith

/-! ### Remaining helper lemmas -/

theorem mem_of_dictLookup {d : List (String × Nat)} {k : String} {mid : Nat}
    (h : dictLookup d k = some mid) : (k, mid) ∈ d := by
  unfold dictLookup at h
  cases hf : d.find? (fun p => decide (p.1 = k)) with
  | none => rw [hf] at h; cases h
  | some p =>
    rw [hf] at h
    have hp : p.1 = k := by simpa using List.find?_some hf
    have hpm : p ∈ d := List.mem_of_find?_eq_some hf
    simp only [Option.map_some', Option.some.injEq] at h
    have : p = (k, mid) := by
      cases p
      simp only [Prod.mk.injEq]
      exact ⟨hp, h⟩
    rw [← this]
    exact hpm

theorem collectNew_fst_of_snd_nil (contents : List S3Obj) :
    ∀ sent, (collectNew sent contents).2 = [] →
      (collectNew sent contents).1 = sent := by
  induction contents with
  | nil => intro sent _; rfl
  | cons obj rest ih =>
    intro sent h
    rw [collectNew] at h ⊢
    split at h
    · rename_i hmem
      rw [if_pos hmem]
      exact ih sent h
    · simp at h

theorem map_fst_filterMap_lookup (fm : List (String × Nat))
    (del : List String) :
    (del.filterMap (fun k => (dictLookup fm k).map (fun m => (k, m)))).map
        Prod.fst =
      del.filter (fun k => (dictLookup fm k).isSome) := by
  induction del with
  | nil => rfl
  | cons x rest ih =>
    cases hm : dictLookup fm x with
    | none =>
      rw [List.filterMap_cons_none (by rw [hm]; rfl),
        List.filter_cons_of_neg (by simp [hm]), ih]
    | some mid =>
      rw [List.filterMap_cons_some (by rw [hm]; rfl), List.map_cons,
        List.filter_cons_of_pos (by simp [hm]), ih]

/-! ### Claim theorems -/

/-- Claim C3: a tick whose listing fetch raises sends no notification,
attempts no retraction, leaves the in-memory state untouched, writes no
file (`saved = none`), and the error is caught and logged
(`fetchFailed = true`) rather than killing the loop; moreover any number
`n` of consecutive fetch failures leaves the state unchanged and the
ticks scheduled after them run exactly as they would have from the
original state — there is no backoff state and no failure limit in the
loop. -/
theorem C3_fetch_error_skips_tick (e : Unit) (sf : S3Obj → Option Nat)
    (rf : Nat → RetractOutcome) (s : BotState) (n : Nat)
    (rest : List TickInput) :
    (tick (.error e) sf rf s).state = s ∧
    (tick (.error e) sf rf s).notified = [] ∧
    (tick (.error e) sf rf s).retractions = [] ∧
    (tick (.error e) sf rf s).saved = none ∧
    (tick (.error e) sf rf s).fetchFailed = true ∧
    runTicks s (List.replicate n ⟨.error e, sf, rf⟩ ++ rest) =
      List.replicate n (⟨s, [], [], [], none, true, false⟩ : TickResult) ++
        runTicks s rest :=
  ⟨rfl, rfl, rfl, rfl, rfl, runTicks_error_prefix e sf rf n s rest⟩

/-- Claim C8: the size reported by `get_file_metadata` is the byte count
divided by 1,048,576 rounded to two decimal places: it is an integer
number of hundredths and within half a hundredth of the exact quotient;
for an object of 3,145,728 bytes it is exactly 3 MB. -/
theorem C8_size_mb (obj : S3Obj) :
    (∃ n : ℤ, (get_file_metadata obj).1 = (n : ℚ) / 100) ∧
    |(get_file_metadata obj).1 - (obj.size : ℚ) / 1048576| ≤ 1 / 200 ∧
    (obj.size = 3145728 → (get_file_metadata obj).1 = 3) := by
  have he : ((1024 * 1024 : ℚ)) = 1048576 := by norm_num
  refine ⟨⟨roundHalfEven (100 * ((obj.size : ℚ) / (1024 * 1024))), rfl⟩, ?_, ?_⟩
  · show |pyRound2 ((obj.size : ℚ) / (1024 * 1024)) -
      (obj.size : ℚ) / 1048576| ≤ 1 / 200
    rw [he]
    exact abs_pyRound2_sub_le _
  · intro hsz
    show pyRound2 ((obj.size : ℚ) / (1024 * 1024)) = 3
    rw [hsz]
    simp only [pyRound2, roundHalfEven, Int.fract]
    norm_num

/-- Witness for `C8_size_mb` at a 3,145,728-byte object. -/
theorem C8_size_mb_witness :
    (⟨"a.zip", 3145728, 0, 0⟩ : S3Obj).size = 3145728 ∧
    (get_file_metadata ⟨"a.zip", 3145728, 0, 0⟩).1 = 3 :=
  ⟨rfl, (C8_size_mb ⟨"a.zip", 3145728, 0, 0⟩).2.2 rfl⟩

/-- Claim C9 counterexample: the claim fails for pre-epoch instants.  For
the instant half a second before the epoch (second −1, microsecond
500000), `int()` truncates toward zero, so the derived epoch integer is
0; converting 0 back to UTC gives 1970-01-01T00:00:00, not the original
instant truncated to whole seconds (second −1). -/
theorem C9_counterexample :
    (get_file_metadata ⟨"f", 0, -1, 500000⟩).2 = 0 ∧ (0 : ℤ) ≠ -1 := by
  constructor
  · simp only [get_file_metadata, intTrunc, timestampOf]
    norm_num
  · decide

/-- Claim C9, amended: for every last-modified instant at or after the
Unix epoch, the derived integer epoch second equals the instant's
whole-second part (the sub-second part is discarded), so converting it
back to a UTC calendar time yields the original instant truncated to
whole seconds. -/
theorem C9_timestamp_roundtrip (obj : S3Obj)
    (hs : 0 ≤ obj.lastModifiedSec) (hm : obj.lastModifiedMicro < 1000000) :
    (get_file_metadata obj).2 = obj.lastModifiedSec :=
  intTrunc_timestampOf_nonneg hs hm

/-- Witness for `C9_timestamp_roundtrip` at 2023-11-14T22:13:20Z plus a
quarter second. -/
theorem C9_timestamp_roundtrip_witness :
    (0 ≤ (1700000000 : ℤ)) ∧ (250000 < 1000000) ∧
    (get_file_metadata ⟨"f", 10, 1700000000, 250000⟩).2 = 1700000000 :=
  ⟨by decide, by decide,
    C9_timestamp_roundtrip ⟨"f", 10, 1700000000, 250000⟩ (by decide) (by decide)⟩

/-- Claim C7: `load` does return the empty default when no file exists,
but `save_sent_files` is not atomic: it truncates `sent_files.json` in
place before writing (`open(..., "w")` then `json.dump`), so a reader at
a crash point between the truncation and the write observes the empty
file — neither the complete old state (`["b.zip"]`) nor the complete new
state (`["a.zip"]`).  The claimed write-to-temp-then-rename behaviour is
absent from the code. -/
theorem C7_save_not_atomic :
    load_sent_files none = [] ∧ load_file_messages none = [] ∧
    "" ∈ save_sent_files_trace (jsonList ["b.zip"]) ["a.zip"] ∧
    "" ≠ jsonList ["b.zip"] ∧ "" ≠ jsonList ["a.zip"] := by
  refine ⟨rfl, rfl, ?_, ?_, ?_⟩
  · show "" ∈ [jsonList ["b.zip"], "", jsonList ["a.zip"]]
    exact List.mem_cons_of_mem _ (List.mem_cons_self _ _)
  · decide
  · decide

/-- Claim C1 counterexample: the claim's "exactly one retraction is
attempted per key that disappeared from the listing" fails when the
disappeared key has no stored notification id.  Tick 1 (from the empty
state, listing `["b.zip"]`) fails its send, leaving `"b.zip"` known with
no stored id; tick 2 (listing empty, fetch and all sends succeed) sees
`"b.zip"` disappear but attempts zero retractions. -/
theorem C1_counterexample :
    (runTicks ⟨[], []⟩
        [⟨.ok ⟨some [⟨"b.zip", 0, 0, 0⟩]⟩, fun _ => none, fun _ => .ok⟩,
         ⟨.ok ⟨some []⟩, fun _ => some 1, fun _ => .ok⟩]).map
      (fun r => (r.sendFailed, r.state.sent_files, r.retractions)) =
    [(true, ["b.zip"], []), (false, [], [])] := by
  decide

/-- Claim C1, amended: for a tick whose fetch and all sends succeed
(`sendFailed = false`), the notified key set is exactly the listing's
keys minus the prior known-key set, exactly one retraction is attempted
per disappeared key *that has a stored notification id*, afterwards the
known-key set equals the listing's key set, and either the final state
was persisted or nothing changed and nothing was written. -/
theorem C1_reconcile (resp : S3Response) (sf : S3Obj → Option Nat)
    (rf : Nat → RetractOutcome) (s : BotState)
    (hnd : s.sent_files.Nodup)
    (hns : (tick (.ok resp) sf rf s).sendFailed = false) :
    (∀ k, k ∈ (tick (.ok resp) sf rf s).notified ↔
      (k ∈ currentKeys (contentsOf resp) ∧ k ∉ s.sent_files)) ∧
    ((tick (.ok resp) sf rf s).retractions.map Prod.fst).Nodup ∧
    (∀ k, k ∈ (tick (.ok resp) sf rf s).retractions.map Prod.fst ↔
      (k ∈ s.sent_files ∧ k ∉ currentKeys (contentsOf resp) ∧
        dictLookup s.file_messages k ≠ none)) ∧
    (∀ k, k ∈ (tick (.ok resp) sf rf s).state.sent_files ↔
      k ∈ currentKeys (contentsOf resp)) ∧
    ((tick (.ok resp) sf rf s).saved =
        some ((tick (.ok resp) sf rf s).state.sent_files,
          (tick (.ok resp) sf rf s).state.file_messages) ∨
      ((tick (.ok resp) sf rf s).saved = none ∧
        (tick (.ok resp) sf rf s).state = s)) := by
  have habort : sendAborted sf s resp = false := by
    rw [tick_ok_eq, tickOk_sendFailed] at hns
    exact hns
  rw [tick_ok_eq, tickOk_of_not_aborted habort]
  refine ⟨?_, ?_, ?_, ?_, ?_⟩
  · intro k
    show k ∈ notifiedKeys sf s resp ↔ _
    rw [notifiedKeys_of_not_aborted habort, mem_newKeys]
  · show ((afterDelete rf sf s resp).2.2.1.map Prod.fst).Nodup
    unfold afterDelete
    rw [processDeleted_retractions _ _ _ _ (deletedKeys_nodup hnd),
      map_fst_filterMap_lookup]
    exact (deletedKeys_nodup hnd).filter _
  · intro k
    show k ∈ (afterDelete rf sf s resp).2.2.1.map Prod.fst ↔ _
    unfold afterDelete
    rw [processDeleted_retractions _ _ _ _ (deletedKeys_nodup hnd),
      map_fst_filterMap_lookup, List.mem_filter]
    constructor
    · rintro ⟨hdel, hsome⟩
      have hd := mem_deletedKeys.mp hdel
      have hlk : dictLookup (fmAfterSend sf s resp) k =
          dictLookup s.file_messages k := by
        apply processNew_lookup_of_not_mem
        intro hmem
        exact hd.2 (mem_newKeys.mp hmem).1
      refine ⟨hd.1, hd.2, ?_⟩
      rw [← hlk]
      simpa using Option.isSome_iff_ne_none.mp (by simpa using hsome)
    · rintro ⟨h1, h2, h3⟩
      have hdel := mem_deletedKeys.mpr ⟨h1, h2⟩
      have hlk : dictLookup (fmAfterSend sf s resp) k =
          dictLookup s.file_messages k := by
        apply processNew_lookup_of_not_mem
        intro hmem
        exact h2 (mem_newKeys.mp hmem).1
      refine ⟨hdel, ?_⟩
      simp only [hlk]
      simpa using Option.isSome_iff_ne_none.mpr h3
  · intro k
    show k ∈ (afterDelete rf sf s resp).2.1 ↔ _
    rw [mem_afterDelete_sent, mem_sentAfterAdd, mem_deletedKeys]
    tauto
  · by_cases hie : ((newObjs s resp).isEmpty &&
        (deletedKeys s resp).isEmpty) = true
    · right
      constructor
      · show (if (newObjs s resp).isEmpty && (deletedKeys s resp).isEmpty
            then none
            else some ((afterDelete rf sf s resp).2.1,
              (afterDelete rf sf s resp).1)) = none
        rw [if_pos hie]
      · rw [Bool.and_eq_true, List.isEmpty_iff, List.isEmpty_iff] at hie
        obtain ⟨hnew, hdel⟩ := hie
        show (⟨(afterDelete rf sf s resp).2.1,
          (afterDelete rf sf s resp).1⟩ : BotState) = s
        have hsa : sentAfterAdd s resp = s.sent_files :=
          collectNew_fst_of_snd_nil _ _ hnew
        have hfa : fmAfterSend sf s resp = s.file_messages := by
          unfold fmAfterSend
          rw [hnew]
          rfl
        have hAD : afterDelete rf sf s resp =
            (s.file_messages, s.sent_files, [], []) := by
          unfold afterDelete
          rw [hdel, hfa, hsa]
          rfl
        rw [hAD]
    · left
      show (if (newObjs s resp).isEmpty && (deletedKeys s resp).isEmpty
          then none
          else some ((afterDelete rf sf s resp).2.1,
            (afterDelete rf sf s resp).1)) = some _
      rw [if_neg hie]

/-- Witness for `C1_reconcile`: the spec's scenario — empty known-key
set, listing `[{key:"a.zip"}]`, send succeeds with id 42 — notifies
exactly `"a.zip"`, leaves the known-key set `["a.zip"]`, and persists
`(["a.zip"], [("a.zip", 42)])`. -/
theorem C1_reconcile_witness :
    ([] : List String).Nodup ∧
    (tick (.ok ⟨some [⟨"a.zip", 1048576, 0, 0⟩]⟩) (fun _ => some 42)
        (fun _ => RetractOutcome.ok) ⟨[], []⟩).sendFailed = false ∧
    "a.zip" ∈ (tick (.ok ⟨some [⟨"a.zip", 1048576, 0, 0⟩]⟩) (fun _ => some 42)
        (fun _ => RetractOutcome.ok) ⟨[], []⟩).notified ∧
    (tick (.ok ⟨some [⟨"a.zip", 1048576, 0, 0⟩]⟩) (fun _ => some 42)
        (fun _ => RetractOutcome.ok) ⟨[], []⟩).notified = ["a.zip"] ∧
    (tick (.ok ⟨some [⟨"a.zip", 1048576, 0, 0⟩]⟩) (fun _ => some 42)
        (fun _ => RetractOutcome.ok) ⟨[], []⟩).state.sent_files = ["a.zip"] ∧
    (tick (.ok ⟨some [⟨"a.zip", 1048576, 0, 0⟩]⟩) (fun _ => some 42)
        (fun _ => RetractOutcome.ok) ⟨[], []⟩).saved =
      some (["a.zip"], [("a.zip", 42)]) := by
  refine ⟨List.nodup_nil, by decide, ?_, by decide, by decide, by decide⟩
  exact ((C1_reconcile ⟨some [⟨"a.zip", 1048576, 0, 0⟩]⟩ (fun _ => some 42)
    (fun _ => RetractOutcome.ok) ⟨[], []⟩ List.nodup_nil (by decide)).1
    "a.zip").mpr ⟨by decide, by decide⟩

/-- Claim C5 counterexample: the phrase "never retried on any later tick" is false
when the key leaves the listing and comes back.  Tick 1: send for
`"b.zip"` fails (key still marked known).  Tick 2: `"b.zip"` absent from
the listing, so it is dropped from the known-key set.  Tick 3: `"b.zip"`
is listed again and its notification IS sent. -/
theorem C5_counterexample :
    (runTicks ⟨[], []⟩
        [⟨.ok ⟨some [⟨"b.zip", 0, 0, 0⟩]⟩, fun _ => none, fun _ => .ok⟩,
         ⟨.ok ⟨some []⟩, fun _ => some 1, fun _ => .ok⟩,
         ⟨.ok ⟨some [⟨"b.zip", 0, 0, 0⟩]⟩, fun _ => some 7, fun _ => .ok⟩]).map
      (fun r => (r.sendFailed, r.state.sent_files, r.notified)) =
    [(true, ["b.zip"], []), (false, [], []), (false, ["b.zip"], ["b.zip"])] := by
  decide

/-- Claim C5, amended: when a send raises, the rest of the tick is
aborted (no retraction, no save), every listed key — including the
failing one — stays in the known-key set (no rollback), and as long as a
key remains in the known-key set (in particular while it keeps appearing
in every successfully fetched listing) it is never notified again; so
the failed notification is never retried while the key remains known. -/
theorem C5_send_failure (resp : S3Response) (sf : S3Obj → Option Nat)
    (rf : Nat → RetractOutcome) (s : BotState)
    (hab : (tick (.ok resp) sf rf s).sendFailed = true) :
    (tick (.ok resp) sf rf s).retractions = [] ∧
    (tick (.ok resp) sf rf s).saved = none ∧
    (∀ obj ∈ contentsOf resp,
      obj.key ∈ (tick (.ok resp) sf rf s).state.sent_files) ∧
    (∀ k, k ∈ (tick (.ok resp) sf rf s).state.sent_files →
      ∀ inputs : List TickInput, (∀ i ∈ inputs, keyListed k i) →
        ∀ r ∈ runTicks (tick (.ok resp) sf rf s).state inputs,
          k ∉ r.notified) := by
  have habort : sendAborted sf s resp = true := by
    rw [tick_ok_eq, tickOk_sendFailed] at hab
    exact hab
  rw [tick_ok_eq, tickOk_of_aborted habort]
  refine ⟨rfl, rfl, ?_, ?_⟩
  · intro obj hobj
    show obj.key ∈ sentAfterAdd s resp
    exact mem_sentAfterAdd.mpr (Or.inr (List.mem_map_of_mem _ hobj))
  · intro k hk inputs hall r hr
    exact runTicks_not_notified inputs _ hk hall r hr

/-- Witness for `C5_send_failure`: a failed send for `"b.zip"` leaves it
known, saves nothing, and while it stays listed it is never re-notified. -/
theorem C5_send_failure_witness :
    (tick (.ok ⟨some [⟨"b.zip", 0, 0, 0⟩]⟩) (fun _ => none)
        (fun _ => RetractOutcome.ok) ⟨[], []⟩).sendFailed = true ∧
    (tick (.ok ⟨some [⟨"b.zip", 0, 0, 0⟩]⟩) (fun _ => none)
        (fun _ => RetractOutcome.ok) ⟨[], []⟩).saved = none ∧
    "b.zip" ∈ (tick (.ok ⟨some [⟨"b.zip", 0, 0, 0⟩]⟩) (fun _ => none)
        (fun _ => RetractOutcome.ok) ⟨[], []⟩).state.sent_files := by
  refine ⟨by decide, ?_, ?_⟩
  · exact (C5_send_failure ⟨some [⟨"b.zip", 0, 0, 0⟩]⟩ (fun _ => none)
      (fun _ => RetractOutcome.ok) ⟨[], []⟩ (by decide)).2.1
  · exact (C5_send_failure ⟨some [⟨"b.zip", 0, 0, 0⟩]⟩ (fun _ => none)
      (fun _ => RetractOutcome.ok) ⟨[], []⟩ (by decide)).2.2.1
      ⟨"b.zip", 0, 0, 0⟩ (by decide)

/-- Claim C2: after a tick that completed (fetch succeeded and no send
raised), re-running the tick on the same listing is a complete no-op:
the resulting state is unchanged, no notification is sent, no retraction
is attempted, no retraction error is logged, nothing is saved, and the
tick reports no failure — whatever the second tick's send/retract
collaborators would do. -/
theorem C2_idempotent (resp : S3Response) (sf sf2 : S3Obj → Option Nat)
    (rf rf2 : Nat → RetractOutcome) (s : BotState)
    (hns : (tick (.ok resp) sf rf s).sendFailed = false) :
    tick (.ok resp) sf2 rf2 (tick (.ok resp) sf rf s).state =
      ⟨(tick (.ok resp) sf rf s).state, [], [], [], none, false, false⟩ := by
  have habort : sendAborted sf s resp = false := by
    rw [tick_ok_eq, tickOk_sendFailed] at hns
    exact hns
  set s1 := (tick (.ok resp) sf rf s).state with hs1
  have hs1sent : ∀ x, x ∈ s1.sent_files ↔
      (x ∈ sentAfterAdd s resp ∧ x ∉ deletedKeys s resp) := by
    intro x
    rw [hs1, tick_ok_eq, tickOk_of_not_aborted habort]
    exact mem_afterDelete_sent
  have hcur : ∀ obj ∈ contentsOf resp, obj.key ∈ s1.sent_files := by
    intro obj hobj
    have hc : obj.key ∈ currentKeys (contentsOf resp) :=
      List.mem_map_of_mem _ hobj
    rw [hs1sent]
    exact ⟨mem_sentAfterAdd.mpr (Or.inr hc),
      fun hd => (mem_deletedKeys.mp hd).2 hc⟩
  have hc2 : collectNew s1.sent_files (contentsOf resp) =
      (s1.sent_files, []) := collectNew_eq_of_all_mem _ _ hcur
  have hnew2 : newObjs s1 resp = [] := by
    unfold newObjs
    rw [hc2]
  have hsa2 : sentAfterAdd s1 resp = s1.sent_files := by
    unfold sentAfterAdd
    rw [hc2]
  have hfa2 : fmAfterSend sf2 s1 resp = s1.file_messages := by
    unfold fmAfterSend
    rw [hnew2]
    rfl
  have habort2 : sendAborted sf2 s1 resp = false := by
    unfold sendAborted
    rw [hnew2]
    rfl
  have hnot2 : notifiedKeys sf2 s1 resp = [] := by
    unfold notifiedKeys
    rw [hnew2]
    rfl
  have hdel2 : deletedKeys s1 resp = [] := by
    unfold deletedKeys
    rw [hsa2]
    apply List.filter_eq_nil_iff.mpr
    intro k hk
    simp only [decide_eq_true_eq, not_not]
    have h1 := (hs1sent k).mp hk
    rcases mem_sentAfterAdd.mp h1.1 with h | h
    · by_contra hnc
      exact h1.2 (mem_deletedKeys.mpr ⟨h, hnc⟩)
    · exact h
  have hAD2 : afterDelete rf2 sf2 s1 resp =
      (s1.file_messages, s1.sent_files, [], []) := by
    unfold afterDelete
    rw [hdel2, hfa2, hsa2]
    rfl
  rw [tick_ok_eq, tickOk_of_not_aborted habort2, hAD2, hnot2, hnew2, hdel2]
  rfl

/-- Witness for `C2_idempotent`: the second tick on an unchanged listing
(with different collaborator behaviour) changes nothing. -/
theorem C2_idempotent_witness :
    (tick (.ok ⟨some [⟨"a.zip", 0, 0, 0⟩]⟩) (fun _ => some 3)
        (fun _ => RetractOutcome.ok) ⟨[], []⟩).sendFailed = false ∧
    tick (.ok ⟨some [⟨"a.zip", 0, 0, 0⟩]⟩) (fun _ => some 9)
        (fun _ => RetractOutcome.err)
        (tick (.ok ⟨some [⟨"a.zip", 0, 0, 0⟩]⟩) (fun _ => some 3)
          (fun _ => RetractOutcome.ok) ⟨[], []⟩).state =
      ⟨(tick (.ok ⟨some [⟨"a.zip", 0, 0, 0⟩]⟩) (fun _ => some 3)
          (fun _ => RetractOutcome.ok) ⟨[], []⟩).state,
        [], [], [], none, false, false⟩ :=
  ⟨by decide, C2_idempotent _ _ _ _ _ _ (by decide)⟩

/-- Claim C4: in a tick that completes, every key known before the tick
and absent from the listing is removed from the known-key set and from
the map; when a notification id is stored for it, exactly that id's
retraction is attempted, a retraction error is logged iff the retraction
outcome is an error other than not-found (not-found and success log
nothing), and when no id is stored no retraction is attempted for it. -/
theorem C4_removed_key (resp : S3Response) (sf : S3Obj → Option Nat)
    (rf : Nat → RetractOutcome) (s : BotState) (k : String)
    (hnd : s.sent_files.Nodup)
    (hns : (tick (.ok resp) sf rf s).sendFailed = false)
    (hk : k ∈ s.sent_files) (hkc : k ∉ currentKeys (contentsOf resp)) :
    k ∉ (tick (.ok resp) sf rf s).state.sent_files ∧
    dictLookup (tick (.ok resp) sf rf s).state.file_messages k = none ∧
    (∀ mid, dictLookup s.file_messages k = some mid →
      ((k, mid) ∈ (tick (.ok resp) sf rf s).retractions ∧
        (k ∈ (tick (.ok resp) sf rf s).deleteErrors ↔
          rf mid = RetractOutcome.err))) ∧
    (dictLookup s.file_messages k = none →
      k ∉ (tick (.ok resp) sf rf s).retractions.map Prod.fst) := by
  have habort : sendAborted sf s resp = false := by
    rw [tick_ok_eq, tickOk_sendFailed] at hns
    exact hns
  rw [tick_ok_eq, tickOk_of_not_aborted habort]
  have hdel : k ∈ deletedKeys s resp := mem_deletedKeys.mpr ⟨hk, hkc⟩
  have hlk : dictLookup (fmAfterSend sf s resp) k =
      dictLookup s.file_messages k := by
    apply processNew_lookup_of_not_mem
    intro hmem
    exact hkc (mem_newKeys.mp hmem).1
  refine ⟨?_, ?_, ?_, ?_⟩
  · intro hmem
    exact (mem_afterDelete_sent.mp hmem).2 hdel
  · show dictLookup (afterDelete rf sf s resp).1 k = none
    rw [afterDelete_lookup, if_pos hdel]
  · intro mid hmid
    constructor
    · show (k, mid) ∈ (afterDelete rf sf s resp).2.2.1
      unfold afterDelete
      rw [processDeleted_retractions _ _ _ _ (deletedKeys_nodup hnd)]
      exact List.mem_filterMap.mpr ⟨k, hdel, by rw [hlk, hmid]; rfl⟩
    · show k ∈ (afterDelete rf sf s resp).2.2.2 ↔ _
      unfold afterDelete
      rw [processDeleted_errors _ _ _ _ (deletedKeys_nodup hnd),
        List.mem_filterMap]
      constructor
      · rintro ⟨a, _, hga⟩
        cases hla : dictLookup (fmAfterSend sf s resp) a with
        | none => rw [hla] at hga; cases hga
        | some m =>
          rw [hla] at hga
          simp only [Option.some_bind] at hga
          by_cases herr : rf m = RetractOutcome.err
          · rw [if_pos herr] at hga
            have hak : a = k := by
              simpa using hga
            subst hak
            rw [hlk, hmid] at hla
            have hmm : mid = m := by
              injection hla
            rw [hmm]
            exact herr
          · rw [if_neg herr] at hga
            cases hga
      · intro herr
        refine ⟨k, hdel, ?_⟩
        show (dictLookup (fmAfterSend sf s resp) k).bind
          (fun m => if rf m = RetractOutcome.err then some k else none) = some k
        rw [hlk, hmid]
        simp [herr]
  · intro hnone hmem
    rcases List.mem_map.mp hmem with ⟨p, hp, hpk⟩
    revert hp
    show p ∈ (afterDelete rf sf s resp).2.2.1 → False
    unfold afterDelete
    rw [processDeleted_retractions _ _ _ _ (deletedKeys_nodup hnd)]
    intro hp
    rcases List.mem_filterMap.mp hp with ⟨a, _, hga⟩
    cases hla : dictLookup (fmAfterSend sf s resp) a with
    | none => rw [hla] at hga; cases hga
    | some m =>
      rw [hla] at hga
      simp only [Option.map_some', Option.some.injEq] at hga
      have hak : a = k := by
        rw [← hga] at hpk
        simpa using hpk
      subst hak
      rw [hlk, hnone] at hla
      cases hla

/-- Witness for `C4_removed_key`: the spec's scenario — known keys
`{"a.zip","b.zip"}` with stored ids, listing `[{key:"a.zip"}]` — the
retraction of `"b.zip"`'s stored id 20 is attempted, the known-key set
becomes `["a.zip"]`, and the map no longer has `"b.zip"`. -/
theorem C4_removed_key_witness :
    (["a.zip", "b.zip"] : List String).Nodup ∧
    (tick (.ok ⟨some [⟨"a.zip", 0, 0, 0⟩]⟩) (fun _ => some 1)
        (fun _ => RetractOutcome.ok)
        ⟨["a.zip", "b.zip"], [("a.zip", 10), ("b.zip", 20)]⟩).sendFailed =
      false ∧
    ("b.zip", 20) ∈ (tick (.ok ⟨some [⟨"a.zip", 0, 0, 0⟩]⟩) (fun _ => some 1)
        (fun _ => RetractOutcome.ok)
        ⟨["a.zip", "b.zip"], [("a.zip", 10), ("b.zip", 20)]⟩).retractions ∧
    "b.zip" ∉ (tick (.ok ⟨some [⟨"a.zip", 0, 0, 0⟩]⟩) (fun _ => some 1)
        (fun _ => RetractOutcome.ok)
        ⟨["a.zip", "b.zip"], [("a.zip", 10), ("b.zip", 20)]⟩).state.sent_files ∧
    dictLookup (tick (.ok ⟨some [⟨"a.zip", 0, 0, 0⟩]⟩) (fun _ => some 1)
        (fun _ => RetractOutcome.ok)
        ⟨["a.zip", "b.zip"],
          [("a.zip", 10), ("b.zip", 20)]⟩).state.file_messages "b.zip" =
      none ∧
    (tick (.ok ⟨some [⟨"a.zip", 0, 0, 0⟩]⟩) (fun _ => some 1)
        (fun _ => RetractOutcome.ok)
        ⟨["a.zip", "b.zip"], [("a.zip", 10), ("b.zip", 20)]⟩).state.sent_files =
      ["a.zip"] := by
  refine ⟨by decide, by decide, ?_, ?_, ?_, by decide⟩
  · exact ((C4_removed_key ⟨some [⟨"a.zip", 0, 0, 0⟩]⟩ (fun _ => some 1)
      (fun _ => RetractOutcome.ok)
      ⟨["a.zip", "b.zip"], [("a.zip", 10), ("b.zip", 20)]⟩ "b.zip"
      (by decide) (by decide) (by decide) (by decide)).2.2.1 20 (by decide)).1
  · exact (C4_removed_key ⟨some [⟨"a.zip", 0, 0, 0⟩]⟩ (fun _ => some 1)
      (fun _ => RetractOutcome.ok)
      ⟨["a.zip", "b.zip"], [("a.zip", 10), ("b.zip", 20)]⟩ "b.zip"
      (by decide) (by decide) (by decide) (by decide)).1
  · exact (C4_removed_key ⟨some [⟨"a.zip", 0, 0, 0⟩]⟩ (fun _ => some 1)
      (fun _ => RetractOutcome.ok)
      ⟨["a.zip", "b.zip"], [("a.zip", 10), ("b.zip", 20)]⟩ "b.zip"
      (by decide) (by decide) (by decide) (by decide)).2.1

theorem tick_saved_eq_state (f : Except Unit S3Response)
    (sf : S3Obj → Option Nat) (rf : Nat → RetractOutcome) (s : BotState)
    (a : List String) (b : List (String × Nat))
    (h : (tick f sf rf s).saved = some (a, b)) :
    (tick f sf rf s).state = ⟨a, b⟩ := by
  cases f with
  | error e => exact Option.noConfusion h
  | ok resp =>
    rw [tick_ok_eq] at h ⊢
    cases habort : sendAborted sf s resp with
    | true =>
      rw [tickOk_of_aborted habort] at h
      exact Option.noConfusion h
    | false =>
      rw [tickOk_of_not_aborted habort] at h ⊢
      have h' : (if (newObjs s resp).isEmpty && (deletedKeys s resp).isEmpty
          then none
          else some ((afterDelete rf sf s resp).2.1,
            (afterDelete rf sf s resp).1)) = some (a, b) := h
      show (⟨(afterDelete rf sf s resp).2.1,
        (afterDelete rf sf s resp).1⟩ : BotState) = ⟨a, b⟩
      split at h'
      · exact Option.noConfusion h'
      · rw [Option.some.injEq, Prod.mk.injEq] at h'
        rw [h'.1, h'.2]

/-- Claim C6 counterexample: the phrase "after startup load the map's keys are a
subset of the known-key set" fails for the on-disk pair left behind when
the process dies between line 150's `save_sent_files` and line 151's
`save_file_messages`.  A tick that removes `"a.zip"` saves `([], [])`;
if only the first write lands, the disk holds sent = `[]` and map =
`[("a.zip", 1)]`, and loading that violates the inclusion. -/
theorem C6_counterexample :
    (tick (.ok ⟨some []⟩) (fun _ => some 1) (fun _ => RetractOutcome.ok)
        ⟨["a.zip"], [("a.zip", 1)]⟩).saved = some ([], []) ∧
    ¬ StateInv (loadState (some []) (some [("a.zip", 1)])) := by
  constructor
  · decide
  · decide

/-- Claim C6, amended: the inclusion map-keys ⊆ known-keys holds after a
first-run startup (no files), is preserved by every tick from a state
satisfying it, and holds after a startup that loads a file pair written
together by one complete save of such a tick; only a load of files not
produced by one complete save (e.g. a crash between the two writes) can
break it. -/
theorem C6_map_subset_invariant (f : Except Unit S3Response)
    (sf : S3Obj → Option Nat) (rf : Nat → RetractOutcome) (s : BotState)
    (hinv : StateInv s) :
    StateInv (loadState none none) ∧
    StateInv (tick f sf rf s).state ∧
    (∀ a b, (tick f sf rf s).saved = some (a, b) →
      StateInv (loadState (some a) (some b))) := by
  refine ⟨?_, stateInv_tick hinv, ?_⟩
  · intro p hp
    cases hp
  · intro a b hsaved
    have hstate := tick_saved_eq_state f sf rf s a b hsaved
    have h2 : StateInv (tick f sf rf s).state := stateInv_tick hinv
    rw [hstate] at h2
    exact h2

/-- Witness for `C6_map_subset_invariant` on a consistent state and one
successful tick. -/
theorem C6_map_subset_invariant_witness :
    StateInv (⟨["a.zip"], [("a.zip", 7)]⟩ : BotState) ∧
    StateInv (tick (.ok ⟨some [⟨"a.zip", 0, 0, 0⟩]⟩) (fun _ => some 7)
      (fun _ => RetractOutcome.ok) ⟨["a.zip"], [("a.zip", 7)]⟩).state := by
  refine ⟨by decide, ?_⟩
  exact (C6_map_subset_invariant (.ok ⟨some [⟨"a.zip", 0, 0, 0⟩]⟩)
    (fun _ => some 7) (fun _ => RetractOutcome.ok)
    ⟨["a.zip"], [("a.zip", 7)]⟩ (by decide)).2.1

/-- Claim C10: a response without a `Contents` entry is treated as an
empty listing, not an error: the tick reports no fetch failure, sends
nothing, treats every known key as removed (a retraction is attempted
for each stored id), ends with empty known-key set and empty map, and —
whenever there was something to remove — persists the empty pair. -/
theorem C10_missing_contents (sf : S3Obj → Option Nat)
    (rf : Nat → RetractOutcome) (s : BotState)
    (hinv : StateInv s) (hnd : s.sent_files.Nodup) :
    (tick (.ok ⟨none⟩) sf rf s).fetchFailed = false ∧
    (tick (.ok ⟨none⟩) sf rf s).sendFailed = false ∧
    (tick (.ok ⟨none⟩) sf rf s).notified = [] ∧
    (tick (.ok ⟨none⟩) sf rf s).state.sent_files = [] ∧
    (tick (.ok ⟨none⟩) sf rf s).state.file_messages = [] ∧
    (∀ k mid, dictLookup s.file_messages k = some mid →
      (k, mid) ∈ (tick (.ok ⟨none⟩) sf rf s).retractions) ∧
    (tick (.ok ⟨none⟩) sf rf s).saved =
      (if s.sent_files.isEmpty then none else some ([], [])) := by
  have habort : sendAborted sf s ⟨none⟩ = false := rfl
  have hdel : deletedKeys s ⟨none⟩ = s.sent_files := by
    unfold deletedKeys
    show List.filter _ s.sent_files = s.sent_files
    apply List.filter_eq_self.mpr
    intro a _
    simp [contentsOf, currentKeys]
  have hADsent : (afterDelete rf sf s ⟨none⟩).2.1 = [] := by
    rw [List.eq_nil_iff_forall_not_mem]
    intro x hx
    have h := mem_afterDelete_sent.mp hx
    have hx2 : x ∈ s.sent_files := h.1
    exact h.2 (by rw [hdel]; exact hx2)
  have hADfm : (afterDelete rf sf s ⟨none⟩).1 = [] := by
    rw [List.eq_nil_iff_forall_not_mem]
    intro p hp
    have hsub : p ∈ fmAfterSend sf s ⟨none⟩ :=
      processDeleted_fst_subset _ _ _ _ p hp
    have hpf : p ∈ s.file_messages := hsub
    have hks : p.1 ∈ s.sent_files := hinv p hpf
    have hkd : p.1 ∈ deletedKeys s ⟨none⟩ := by
      rw [hdel]
      exact hks
    have hnone : dictLookup (afterDelete rf sf s ⟨none⟩).1 p.1 = none := by
      rw [afterDelete_lookup, if_pos hkd]
    exact dictLookup_ne_none_of_mem hp hnone
  rw [tick_ok_eq, tickOk_of_not_aborted habort]
  refine ⟨rfl, rfl, rfl, hADsent, hADfm, ?_, ?_⟩
  · intro k mid hmid
    show (k, mid) ∈ (afterDelete rf sf s ⟨none⟩).2.2.1
    unfold afterDelete
    rw [processDeleted_retractions _ _ _ _ (deletedKeys_nodup hnd)]
    refine List.mem_filterMap.mpr ⟨k, ?_, ?_⟩
    · rw [hdel]
      exact hinv (k, mid) (mem_of_dictLookup hmid)
    · show (dictLookup (fmAfterSend sf s ⟨none⟩) k).map
        (fun m => (k, m)) = some (k, mid)
      have hfl : dictLookup (fmAfterSend sf s ⟨none⟩) k = some mid := hmid
      rw [hfl]
      rfl
  · show (if (newObjs s ⟨none⟩).isEmpty && (deletedKeys s ⟨none⟩).isEmpty
        then none
        else some ((afterDelete rf sf s ⟨none⟩).2.1,
          (afterDelete rf sf s ⟨none⟩).1)) = _
    have hne : (newObjs s ⟨none⟩).isEmpty = true := rfl
    rw [hne, Bool.true_and, hdel, hADsent, hADfm]

/-- Witness for `C10_missing_contents`: from known key `"a.zip"` with
stored id 5, a `Contents`-less response retracts id 5, empties the state
and persists `([], [])`. -/
theorem C10_missing_contents_witness :
    StateInv (⟨["a.zip"], [("a.zip", 5)]⟩ : BotState) ∧
    (["a.zip"] : List String).Nodup ∧
    (tick (.ok ⟨none⟩) (fun _ => some 1) (fun _ => RetractOutcome.ok)
        ⟨["a.zip"], [("a.zip", 5)]⟩).state.sent_files = [] ∧
    ("a.zip", 5) ∈ (tick (.ok ⟨none⟩) (fun _ => some 1)
        (fun _ => RetractOutcome.ok)
        ⟨["a.zip"], [("a.zip", 5)]⟩).retractions ∧
    (tick (.ok ⟨none⟩) (fun _ => some 1) (fun _ => RetractOutcome.ok)
        ⟨["a.zip"], [("a.zip", 5)]⟩).saved = some ([], []) := by
  refine ⟨by decide, by decide, ?_, ?_, by decide⟩
  · exact (C10_missing_contents (fun _ => some 1) (fun _ => RetractOutcome.ok)
      ⟨["a.zip"], [("a.zip", 5)]⟩ (by decide) (by decide)).2.2.2.1
  · exact (C10_missing_contents (fun _ => some 1) (fun _ => RetractOutcome.ok)
      ⟨["a.zip"], [("a.zip", 5)]⟩ (by decide) (by decide)).2.2.2.2.2.1
      "a.zip" 5 (by decide)
